/-
Verification of the mbtiles-go reader (src/mbtiles.go): a shallow embedding
of the data model and operations of the package, together with proofs of the
specification claims.

Modelling conventions:
- The SQLite database behind a handle is modelled as an explicit value
  (`TilesDB`): the list of rows of the `tiles` relation, the rows of the
  `metadata` relation (name/value string pairs), and the list of object
  names recorded in the `sqlite_master` catalog.
- `database/sql` semantics used by the code are modelled explicitly:
  `sql.DB.Conn` on a closed pool yields a nil connection together with an
  error; `sql.Row.Scan` on a query with no rows returns `sql.ErrNoRows`
  without writing to its destination; `sql.DB.QueryRow` never returns nil.
- Calling a method on a nil connection (as the deferred `closeConnection`
  does when `getConnection` failed) is a nil-pointer dereference: a Go
  panic, modelled by the `Outcome.panicked` result.
- Machine integers are modelled as `Int`/`Nat` (no overflow is reachable in
  the claims considered); float64 values produced by `strconv.ParseFloat`
  are modelled as exact rationals, restricting the accepted syntax to plain
  decimal notation with an optional exponent (hex floats, infinities and
  NaN are outside the model).
-/
import Mathlib

namespace MBtilesGo

/-- The closed tile-format taxonomy.
Modelled from the spec: the `TileFormat` declaration lives in a source file
of this repository that is not under src/ (only its users in mbtiles.go
are); per the spec it is the closed tag set PNG, JPG, WEBP, PBF, UNKNOWN
plus the transient GZIP tag produced during classification. -/
inductive TileFormat where
  | UNKNOWN
  | GZIP
  | PNG
  | JPG
  | PBF
  | WEBP
deriving DecidableEq

/-- A row of the `tiles` relation: zoom_level, tile_column, tile_row and the
opaque tile_data payload (a byte sequence, each entry < 256). -/
structure Tile where
  zoom_level : Int
  tile_column : Int
  tile_row : Int
  tile_data : List Nat
deriving DecidableEq

/-- The visible contents of one mbtiles SQLite database: the catalog of
object names in `sqlite_master`, the `tiles` relation and the `metadata`
relation (name/value string pairs). -/
structure TilesDB where
  catalog : List String
  tiles : List Tile
  metadata : List (String × String)
deriving DecidableEq

/-- The state of the `*sql.DB` connection pool held by a handle: the
database it serves plus whether `(*sql.DB).Close` has been called on it.
Go's `MBtiles.Close` closes the pool but leaves the pointer in place, so a
closed pool is distinct from a nil pool. -/
structure Pool where
  db : TilesDB
  closed : Bool
deriving DecidableEq

/-- The `MBtiles` handle of src/mbtiles.go. `pool = none` models a nil
`*sql.DB` field (the zero value of the struct, i.e. an unopened handle). -/
structure MBtiles where
  filename : String
  pool : Option Pool
  format : TileFormat
  timestamp : Int
  tilesize : Nat
deriving DecidableEq

/-- Byte sequences (tile payloads). -/
abbrev Blob := List Nat

/-- Result of a Go call that may return a value, return an error, or panic.
The panic outcome models a runtime nil-pointer dereference. -/
inductive Outcome (α : Type) where
  | ok : α → Outcome α
  | error : String → Outcome α
  | panicked : Outcome α
deriving DecidableEq

/- ## String helpers modelling the Go standard library -/

/-- Characters treated as whitespace by `strings.TrimSpace` (the ASCII
subset; exotic unicode space classes are outside the model). -/
def isSpaceCh (c : Char) : Bool :=
  c == ' ' || c == '\t' || c == '\n' || c == '\r'

/-- ASCII decimal digit test. -/
def isDigitCh (c : Char) : Bool :=
  '0' ≤ c && c ≤ '9'

/-- Model of `strings.TrimSpace` on an explicit character list. -/
def trimSpaceCh (cs : List Char) : List Char :=
  ((cs.dropWhile isSpaceCh).reverse.dropWhile isSpaceCh).reverse

/-- Model of `strings.Split` on a single separator character, over character lists:
splitting the empty string gives one empty field, like Go's
`strings.Split("", ",") == [""]`. -/
def splitCh (sep : Char) : List Char → List (List Char)
  | [] => [[]]
  | c :: rest =>
    if c == sep then
      [] :: splitCh sep rest
    else
      match splitCh sep rest with
      | g :: gs => (c :: g) :: gs
      | [] => [[c]]

/-- Take the maximal span of leading ASCII digits. -/
def spanDigits : List Char → List Char × List Char
  | [] => ([], [])
  | c :: rest =>
    if isDigitCh c then
      match spanDigits rest with
      | (ds, r) => (c :: ds, r)
    else
      ([], c :: rest)

/-- Value of a digit sequence read in base 10. -/
def digitsVal (ds : List Char) : Nat :=
  ds.foldl (fun a c => a * 10 + (c.toNat - 48)) 0

/-- Model of `strconv.Atoi`: an optional sign followed by one or more decimal
digits and nothing else (the 64-bit range check is outside the model). -/
def goAtoi (s : String) : Option Int :=
  let p : Int × List Char :=
    match s.data with
    | '-' :: r => (-1, r)
    | '+' :: r => (1, r)
    | cs => (1, cs)
  match p with
  | (sign, ds) =>
    if ds = [] then none
    else if ds.all isDigitCh then some (sign * (digitsVal ds : Int))
    else none

/-- The rational value of a signed decimal with mantissa `d` (the sign is
carried by `d`), `l` fractional digits and decimal exponent `z`:
`d * 10 ^ (z - l)` built directly with `mkRat` (kernel-reducible, unlike
the rational field operations). -/
def scaleDecimal (d : Int) (l : Nat) (z : Int) : ℚ :=
  if 0 ≤ z then mkRat (d * (10 : Int) ^ z.toNat) (10 ^ l)
  else mkRat d (10 ^ (l + z.natAbs))

/-- Model of `strconv.ParseFloat` on a character list, as an exact rational:
optional sign, decimal digits with an optional fraction part (at least one
mantissa digit overall), and an optional decimal exponent. Go's hex float,
infinity and NaN forms are outside the model. -/
def parseGoFloatCh (cs : List Char) : Option ℚ :=
  let p : Int × List Char :=
    match cs with
    | '-' :: r => (-1, r)
    | '+' :: r => (1, r)
    | _ => (1, cs)
  match p with
  | (sign, cs1) =>
    match spanDigits cs1 with
    | (ip, cs2) =>
      let q : List Char × List Char :=
        match cs2 with
        | '.' :: r => spanDigits r
        | _ => ([], cs2)
      match q with
      | (fp, cs3) =>
        if ip = [] ∧ fp = [] then none
        else
          let d : Int := sign * (digitsVal (ip ++ fp) : Int)
          match cs3 with
          | [] => some (scaleDecimal d fp.length 0)
          | 'e' :: r =>
            match parseExpPart r with
            | none => none
            | some z => some (scaleDecimal d fp.length z)
          | 'E' :: r =>
            match parseExpPart r with
            | none => none
            | some z => some (scaleDecimal d fp.length z)
          | _ => none
where
  /-- The exponent tail: optional sign, one or more digits, end of input. -/
  parseExpPart (r : List Char) : Option Int :=
    let p : Int × List Char :=
      match r with
      | '-' :: r2 => (-1, r2)
      | '+' :: r2 => (1, r2)
      | _ => (1, r)
    match p with
    | (esign, r1) =>
      match spanDigits r1 with
      | ([], _) => none
      | (ed, r2) => if r2 = [] then some (esign * (digitsVal ed : Int)) else none

/-- Go's `%q` verb, as used in error messages (escape expansion inside the
quoted text is outside the model). -/
def goQuote (s : String) : String :=
  "\"" ++ s ++ "\""

/-- The loop of `parseFloats` of src/mbtiles.go, lines 435-446: split the string on
commas, trim each piece and parse it as a float; on the first failure
return the floats accumulated so far together with an error (the inner
`strconv` error detail is omitted from the message). The caller only uses
the error to decide failure. Processing of the remaining pieces stops at
the first failure, exactly as the Go loop returns early. -/
def parseFloatsAux (str : String) : List (List Char) → List ℚ × Option String
  | [] => ([], none)
  | v :: rest =>
    match parseGoFloatCh (trimSpaceCh v) with
    | none => ([], some ("could not parse " ++ goQuote str ++ " to floats"))
    | some q =>
      match parseFloatsAux str rest with
      | (out, e) => (q :: out, e)

/-- The `parseFloats` entry point (src/mbtiles.go line 435). -/
def parseFloats (str : String) : List ℚ × Option String :=
  parseFloatsAux str (splitCh ',' str.data)

/- ## JSON values and `encoding/json.Unmarshal`

`ReadMetadata` feeds `json`-named metadata rows through `json.Unmarshal`
into the result map. The model parses JSON text into an explicit value tree
and requires the top-level value to be an object, as `Unmarshal` into a
`map[string]interface{}` does. Numbers are modelled as exact rationals
(Go decodes them to float64); the `\uXXXX` string escape is outside the
model. -/

/-- A decoded JSON value. -/
inductive JsonVal where
  | null : JsonVal
  | bool : Bool → JsonVal
  | num : ℚ → JsonVal
  | str : String → JsonVal
  | arr : List JsonVal → JsonVal
  | obj : List (String × JsonVal) → JsonVal

/-- Decode the body of a JSON string literal (after the opening quote),
returning the decoded characters and the remaining input. -/
def parseJsonStringAux : List Char → Option (List Char × List Char)
  | [] => none
  | c :: r =>
    if c == '"' then some ([], r)
    else if c == '\\' then
      match r with
      | [] => none
      | e :: r2 =>
        let esc : Option Char :=
          if e == '"' then some '"'
          else if e == '\\' then some '\\'
          else if e == '/' then some '/'
          else if e == 'n' then some '\n'
          else if e == 't' then some '\t'
          else if e == 'r' then some '\r'
          else if e == 'b' then some (Char.ofNat 8)
          else if e == 'f' then some (Char.ofNat 12)
          else none
        match esc with
        | none => none
        | some ch =>
          match parseJsonStringAux r2 with
          | none => none
          | some (s, rest) => some (ch :: s, rest)
    else
      match parseJsonStringAux r with
      | none => none
      | some (s, rest) => some (c :: s, rest)

/-- Decode a JSON number (strict JSON grammar: no leading `+`, no leading
zeros, optional fraction and exponent), returning it and the remainder. -/
def parseJsonNumber (cs : List Char) : Option (ℚ × List Char) :=
  let p : Int × List Char :=
    match cs with
    | '-' :: r => (-1, r)
    | _ => (1, cs)
  match p with
  | (sign, cs1) =>
    match spanDigits cs1 with
    | ([], _) => none
    | (ip, cs2) =>
      if 1 < ip.length ∧ ip.headD '0' = '0' then none
      else
        let q : Option (List Char × List Char) :=
          match cs2 with
          | '.' :: r =>
            match spanDigits r with
            | ([], _) => none
            | (fp, r') => some (fp, r')
          | _ => some ([], cs2)
        match q with
        | none => none
        | some (fp, cs3) =>
          let d : Int := sign * (digitsVal (ip ++ fp) : Int)
          match cs3 with
          | 'e' :: r => expTail d fp.length r
          | 'E' :: r => expTail d fp.length r
          | _ => some (scaleDecimal d fp.length 0, cs3)
where
  /-- Exponent part of a number followed by arbitrary remaining input. -/
  expTail (d : Int) (l : Nat) (r : List Char) : Option (ℚ × List Char) :=
    let p : Int × List Char :=
      match r with
      | '-' :: r2 => (-1, r2)
      | '+' :: r2 => (1, r2)
      | _ => (1, r)
    match p with
    | (esign, r1) =>
      match spanDigits r1 with
      | ([], _) => none
      | (ed, r2) => some (scaleDecimal d l (esign * (digitsVal ed : Int)), r2)

/-- JSON insignificant whitespace. -/
def skipWsJ : List Char → List Char
  | c :: r => if isSpaceCh c then skipWsJ r else c :: r
  | [] => []

mutual

/-- Decode one JSON value, fuelled (the fuel bounds nesting depth; callers
supply the input length, which is a sound bound since each nesting level
consumes at least one character). -/
def parseJsonValue : Nat → List Char → Option (JsonVal × List Char)
  | 0, _ => none
  | fuel + 1, cs =>
    match skipWsJ cs with
    | 'n' :: 'u' :: 'l' :: 'l' :: r => some (.null, r)
    | 't' :: 'r' :: 'u' :: 'e' :: r => some (.bool true, r)
    | 'f' :: 'a' :: 'l' :: 's' :: 'e' :: r => some (.bool false, r)
    | '"' :: r =>
      match parseJsonStringAux r with
      | none => none
      | some (s, rest) => some (.str (String.mk s), rest)
    | '[' :: r =>
      match skipWsJ r with
      | ']' :: r2 => some (.arr [], r2)
      | r2 =>
        match parseJsonElems fuel r2 with
        | none => none
        | some (vs, rest) => some (.arr vs, rest)
    | c :: r =>
      -- An opening brace starts an object (the brace characters are
      -- compared through their code points 123 and 125).
      if c.toNat = 123 then
        match skipWsJ r with
        | c2 :: r2 =>
          if c2.toNat = 125 then some (.obj [], r2)
          else
            match parseJsonMembers fuel (c2 :: r2) with
            | none => none
            | some (kvs, rest) => some (.obj kvs, rest)
        | [] => none
      else
        match parseJsonNumber (c :: r) with
        | none => none
        | some (q, rest) => some (.num q, rest)
    | [] => none

/-- Decode the non-empty element list of a JSON array, including the
closing bracket. -/
def parseJsonElems : Nat → List Char → Option (List JsonVal × List Char)
  | 0, _ => none
  | fuel + 1, cs =>
    match parseJsonValue fuel cs with
    | none => none
    | some (v, rest) =>
      match skipWsJ rest with
      | ']' :: r2 => some ([v], r2)
      | ',' :: r2 =>
        match parseJsonElems fuel r2 with
        | none => none
        | some (vs, rest2) => some (v :: vs, rest2)
      | _ => none

/-- Decode the non-empty member list of a JSON object, including the
closing brace. -/
def parseJsonMembers : Nat → List Char → Option (List (String × JsonVal) × List Char)
  | 0, _ => none
  | fuel + 1, cs =>
    match skipWsJ cs with
    | '"' :: r =>
      match parseJsonStringAux r with
      | none => none
      | some (key, r1) =>
        match skipWsJ r1 with
        | ':' :: r2 =>
          match parseJsonValue fuel r2 with
          | none => none
          | some (v, r3) =>
            match skipWsJ r3 with
            | ',' :: r4 =>
              match parseJsonMembers fuel r4 with
              | none => none
              | some (kvs, rest) => some ((String.mk key, v) :: kvs, rest)
            | c :: r4 =>
              if c.toNat = 125 then some ([(String.mk key, v)], r4)
              else none
            | [] => none
        | _ => none
    | _ => none

end

/-- Model of `json.Unmarshal` of a value into a `map[string]interface{}`: the text
must decode as a single JSON object with nothing but whitespace after it;
the result is the ordered member list (later duplicates override earlier
ones when merged). -/
def jsonUnmarshalObject (s : String) : Option (List (String × JsonVal)) :=
  match parseJsonValue (s.data.length + 1) s.data with
  | some (.obj kvs, rest) => if skipWsJ rest = [] then some kvs else none
  | _ => none

/- ## The metadata document -/

/-- A value of the `map[string]interface{}` document built by
`ReadMetadata`: an integer (minzoom/maxzoom), a float list (bounds/center),
a raw string (any other key), or a value merged from a `json` row. -/
inductive MetaValue where
  | int : Int → MetaValue
  | floats : List ℚ → MetaValue
  | str : String → MetaValue
  | json : JsonVal → MetaValue

/-- The metadata document: an insertion-ordered key/value map. -/
abbrev MetaMap := List (String × MetaValue)

/-- Map update: replace the value at the key if present, else append. -/
def metaUpsert : MetaMap → String → MetaValue → MetaMap
  | [], k, v => [(k, v)]
  | (k', v') :: rest, k, v =>
    if k' = k then (k, v) :: rest else (k', v') :: metaUpsert rest k v

/-- Map lookup. -/
def metaLookup : MetaMap → String → Option MetaValue
  | [], _ => none
  | (k', v') :: rest, k => if k' = k then some v' else metaLookup rest k

/-- Shallow merge of a decoded JSON object into the document, in member
order: adds or overwrites keys, as `json.Unmarshal` into the existing map
does. -/
def jsonMerge (m : MetaMap) (kvs : List (String × JsonVal)) : MetaMap :=
  kvs.foldl (fun acc kv => metaUpsert acc kv.1 (.json kv.2)) m

/-- The rows produced by `select name, value from metadata where value is
not ''` (src/mbtiles.go line 278): metadata rows whose value is not the
empty string, in relation order. -/
def metadataRows (d : TilesDB) : List (String × String) :=
  d.metadata.filter (fun r => r.2 != "")

/-- The row-scanning loop of `ReadMetadata` (src/mbtiles.go lines 292-317):
the switch on the row name coerces minzoom/maxzoom with `strconv.Atoi`,
bounds/center with `parseFloats`, merges `json` rows via `json.Unmarshal`,
and stores anything else as a raw string; the first coercion failure aborts
the whole call with an error. (Go also writes the zero value to the map
before noticing an Atoi/parseFloats error, but that map is discarded on the
error return, so the model omits the dead write.) -/
def processRows : List (String × String) → MetaMap → Except String MetaMap
  | [], m => .ok m
  | (n, v) :: rest, m =>
    if n = "maxzoom" ∨ n = "minzoom" then
      match goAtoi v with
      | some i => processRows rest (metaUpsert m n (.int i))
      | none => .error ("cannot read metadata item " ++ n ++ ": invalid syntax")
    else if n = "bounds" ∨ n = "center" then
      match parseFloats v with
      | (fs, none) => processRows rest (metaUpsert m n (.floats fs))
      | (_, some e) => .error ("cannot read metadata item " ++ n ++ ": " ++ e)
    else if n = "json" then
      match jsonUnmarshalObject v with
      | some kvs => processRows rest (jsonMerge m kvs)
      | none => .error "unable to parse JSON metadata item"
    else
      processRows rest (metaUpsert m n (.str v))

/-- The result scanned from `select min(zoom_level), max(zoom_level) from
tiles` (src/mbtiles.go lines 323-332): on an empty relation the query
yields one row of NULLs, `Scan` into int fails, and — the error being
ignored — both variables keep their zero values; otherwise the minimum and
maximum zoom over the rows. -/
def scannedMinMax (tiles : List Tile) : Int × Int :=
  match tiles.map (fun t => t.zoom_level) with
  | [] => (0, 0)
  | z :: zs => (zs.foldl min z, zs.foldl max z)

/-- The zoom-supplement step of `ReadMetadata` (src/mbtiles.go lines
319-336): when the document does not hold both `minzoom` and `maxzoom`,
both keys are overwritten with the scanned zoom range. -/
def supplementZooms (tiles : List Tile) (m : MetaMap) : MetaMap :=
  if (metaLookup m "minzoom").isSome && (metaLookup m "maxzoom").isSome then m
  else
    metaUpsert (metaUpsert m "minzoom" (.int (scannedMinMax tiles).1))
      "maxzoom" (.int (scannedMinMax tiles).2)

/- ## The handle operations -/

/-- The error returned by both `ReadTile` and `ReadMetadata` when the
handle or its pool is nil (the message is shared verbatim in the source). -/
def closedMsg : String := "cannot read tile from closed mbtiles database"

/-- The `Close` method (src/mbtiles.go lines 218-222): closes the pool when one is
present, but leaves the pool pointer in place — the handle's `pool` field
is never reset to nil. -/
def Close (db : MBtiles) : MBtiles :=
  match db.pool with
  | none => db
  | some p => { db with pool := some { p with closed := true } }

/-- The `ReadTile` method (src/mbtiles.go lines 226-261). The `data` argument is the
caller's `*[]byte` buffer (its contents on entry), and the ok-outcome
carries its contents on return.

- A nil handle or nil pool returns the closed-handle error.
- On a pool that `Close` has closed, `pool.Conn` yields a nil connection
  with an error; `getConnection` (lines 362-368) ignores that error and
  reports "connection could not be opened", but the deferred
  `closeConnection` (registered before the error check, line 232) then
  calls `Close` on the nil connection: a nil-pointer panic.
- `QueryRow` never returns nil, so the `row == nil` branch of line 244 is
  unreachable and has no counterpart here.
- When no row matches, `row.Scan` returns `sql.ErrNoRows` without writing
  to the destination, and the code returns a nil error: the buffer keeps
  whatever it held on entry. -/
def ReadTile (db : Option MBtiles) (z x y : Int) (data : Option Blob) :
    Outcome (Option Blob) :=
  match db with
  | none => .error closedMsg
  | some h =>
    match h.pool with
    | none => .error closedMsg
    | some p =>
      if p.closed then .panicked
      else
        match p.db.tiles.find? (fun t =>
            t.zoom_level == z && t.tile_column == x && t.tile_row == y) with
        | some t => .ok (some t.tile_data)
        | none => .ok data

/-- The `ReadMetadata` method (src/mbtiles.go lines 265-338): the same closed-handle
and nil-connection behaviour as `ReadTile`, then the row scan and the
zoom supplement. -/
def ReadMetadata (db : Option MBtiles) : Outcome MetaMap :=
  match db with
  | none => .error closedMsg
  | some h =>
    match h.pool with
    | none => .error closedMsg
    | some p =>
      if p.closed then .panicked
      else
        match processRows (metadataRows p.db) [] with
        | .error e => .error e
        | .ok m => .ok (supplementZooms p.db.tiles m)

/-- The `GetFilename` accessor (src/mbtiles.go line 340). -/
def GetFilename (db : MBtiles) : String := db.filename

/-- The `GetTileFormat` accessor (src/mbtiles.go line 345). -/
def GetTileFormat (db : MBtiles) : TileFormat := db.format

/-- The `GetTileSize` accessor (src/mbtiles.go line 351). -/
def GetTileSize (db : MBtiles) : Nat := db.tilesize

/-- The `GetTimestamp` accessor (src/mbtiles.go line 356). -/
def GetTimestamp (db : MBtiles) : Int := db.timestamp

/- ## Validation and format detection -/

/-- The `validateRequiredTables` check (src/mbtiles.go lines 377-395): count the
`sqlite_master` rows named `tiles` or `metadata` and fail when fewer than
two match. Only names are consulted; column shapes are never inspected. -/
def validateRequiredTables (catalog : List String) : Except String Unit :=
  let count := (catalog.filter (fun n => n == "tiles" || n == "metadata")).length
  if count < 2 then .error "missing one or more required tables: tiles, metadata"
  else .ok ()

/-- The PNG eight-byte signature. -/
def pngSignature : List Nat := [137, 80, 78, 71, 13, 10, 26, 10]

/-- Modelled from the spec: `detectTileFormat`, the byte sniffer, lives in
a source file of this repository that is not under src/ (only its caller
`getTileFormatAndSize` is). Per spec section 4.1: empty input is UNKNOWN
with no error; otherwise the input is matched against the PNG signature,
the JPEG start-of-image marker, the WebP RIFF/WEBP chunk markers and the
gzip magic pair (yielding the transient GZIP tag); an unmatched non-empty
input is a format error. -/
def detectTileFormat (data : List Nat) : Except String TileFormat :=
  if data = [] then .ok .UNKNOWN
  else if pngSignature.isPrefixOf data then .ok .PNG
  else if [255, 216].isPrefixOf data then .ok .JPG
  else if [82, 73, 70, 70].isPrefixOf data && (data.drop 8).take 4 == [87, 69, 66, 80] then
    .ok .WEBP
  else if [31, 139].isPrefixOf data then .ok .GZIP
  else .error "could not detect tile format"

/-- Big-endian value of a byte list. -/
def be32 (bs : List Nat) : Nat :=
  bs.foldl (fun a b => a * 256 + b) 0

/-- Modelled from the spec: `detectTileSize`, the dimension prober, lives
in the same missing source file as `detectTileFormat`. Per spec section
4.2: only PNG carries an in-band size; the IHDR chunk tag is validated at
its fixed offset (bytes 12-15), width and height are read big-endian
(bytes 16-19 and 20-23), tiles are assumed square; a truncated or corrupt
header or a width/height mismatch is a format error distinct from
signature-detection failure. Every other format reports size 0 with no
error. -/
def detectTileSize (format : TileFormat) (data : List Nat) : Except String Nat :=
  match format with
  | .PNG =>
    if data.length < 24 then .error "invalid PNG header"
    else if (data.drop 12).take 4 == [73, 72, 68, 82] then
      let w := be32 ((data.drop 16).take 4)
      let h := be32 ((data.drop 20).take 4)
      if w == h then .ok w else .error "tile is not square"
    else .error "invalid PNG header"
  | _ => .ok 0

/-- The sample read by `select tile_data from tiles limit 1`
(src/mbtiles.go lines 403-412): the first tile's payload, or — when the
relation is empty and the ignored `Scan` error leaves the slice as
initialised — the empty byte sequence. -/
def sampleTileData (tiles : List Tile) : List Nat :=
  match tiles with
  | [] => []
  | t :: _ => t.tile_data

/-- The `getTileFormatAndSize` probe (src/mbtiles.go lines 400-430): sniff the
sampled tile, rewrite the transient GZIP classification to PBF (gzip masks
PBF, the only tile type stored gzipped), then probe the size. -/
def getTileFormatAndSize (tiles : List Tile) : Except String (TileFormat × Nat) :=
  let tileData := sampleTileData tiles
  match detectTileFormat tileData with
  | .error e => .error e
  | .ok f =>
    let format := if f == .GZIP then TileFormat.PBF else f
    match detectTileSize format tileData with
    | .error e => .error e
    | .ok ts => .ok (format, ts)

/- ## Opening a handle -/

/-- The environment an open operation runs against: the path and its
filesystem state (existence, presence of the `<path>-journal` sibling, the
rounded modification time), whether the driver connection implements the
backup capability, and the database image stored at the path. The model
assumes the file is a readable SQLite image; I/O-level failures of
`sql.Open`/`Conn` and of the backup copy steps are outside the claims
considered. -/
structure OpenEnv where
  path : String
  pathExists : Bool
  journalExists : Bool
  modTime : Int
  supportsBackup : Bool
  db : TilesDB
deriving DecidableEq

/-- The `getModTime` check (src/mbtiles.go lines 202-215): a missing path is a path
error; a present `<path>-journal` sibling makes the open refuse with the
incomplete-tileset error; otherwise the rounded modification time. -/
def getModTime (env : OpenEnv) : Except String Int :=
  if env.pathExists = false then .error ("path does not exist: " ++ goQuote env.path)
  else if env.journalExists then
    .error "refusing to open mbtiles file with associated -journal file (incomplete tileset)"
  else .ok env.modTime

/-- The `Open` constructor (src/mbtiles.go lines 160-200). The second component counts the
probing sessions still checked out of the pool when the call returns: the
connection taken at line 171 is never released by `Open` — there is no
deferred close — so every return after that point leaves it checked out.
The sqlite version probe of line 177 always succeeds in the model. -/
def Open (env : OpenEnv) : Except String MBtiles × Nat :=
  match getModTime env with
  | .error e => (.error e, 0)
  | .ok modTime =>
    match validateRequiredTables env.db.catalog with
    | .error e => (.error e, 1)
    | .ok _ =>
      match getTileFormatAndSize env.db.tiles with
      | .error e => (.error e, 1)
      | .ok (format, tilesize) =>
        (.ok { filename := env.path, pool := some { db := env.db, closed := false },
               format := format, timestamp := modTime, tilesize := tilesize }, 1)

/-- The `OpenInMemory` constructor (src/mbtiles.go lines 61-137). The source connection and
source pool are released by deferred closes on every path; the backup
primitive copies the database image into a fresh in-memory instance. The
second component again counts probing sessions still checked out on
return: the destination connection taken at line 116 is never released, so
validation and detection failures (and success) leave it checked out,
while the capability failure at line 85 happens before it exists. -/
def OpenInMemory (env : OpenEnv) : Except String MBtiles × Nat :=
  match getModTime env with
  | .error e => (.error e, 0)
  | .ok modTime =>
    if env.supportsBackup = false then (.error "driver does not support backups", 0)
    else
      match validateRequiredTables env.db.catalog with
      | .error e => (.error e, 1)
      | .ok _ =>
        match getTileFormatAndSize env.db.tiles with
        | .error e => (.error e, 1)
        | .ok (format, tilesize) =>
          (.ok { filename := "file::mem:?mode=memory",
                 pool := some { db := env.db, closed := false },
                 format := format, timestamp := modTime, tilesize := tilesize }, 1)

/- ## Concrete databases and handles used by the claim witnesses -/

/-- A well-formed database with a single JPEG tile. -/
def sampleDB : TilesDB :=
  { catalog := ["tiles", "metadata"], tiles := [⟨0, 0, 0, [255, 216, 255]⟩],
    metadata := [] }

/-- An open handle over `sampleDB`. -/
def hOpenSample : MBtiles :=
  { filename := "a.mbtiles", pool := some { db := sampleDB, closed := false },
    format := .JPG, timestamp := 0, tilesize := 0 }

/-- An unopened handle: the zero value of the struct, whose pool is nil. -/
def hUnopened : MBtiles :=
  { filename := "", pool := none, format := .UNKNOWN, timestamp := 0, tilesize := 0 }

/-- An open handle over a database with no tiles at all. -/
def hNoTiles : MBtiles :=
  { filename := "b.mbtiles",
    pool := some { db := { catalog := ["tiles", "metadata"], tiles := [], metadata := [] },
                   closed := false },
    format := .UNKNOWN, timestamp := 0, tilesize := 0 }

/-- An open handle whose metadata rows supply minzoom 5 and maxzoom 3. -/
def hZoomsReversed : MBtiles :=
  { filename := "c.mbtiles",
    pool := some { db := { catalog := ["tiles", "metadata"],
                           tiles := [⟨1, 0, 0, [255, 216, 255]⟩],
                           metadata := [("minzoom", "5"), ("maxzoom", "3")] },
                   closed := false },
    format := .JPG, timestamp := 0, tilesize := 0 }

/-- A pool whose metadata rows supply only minzoom (as 5) while the tiles
span zooms 3 to 12. -/
def poolMinOnly : Pool :=
  { db := { catalog := ["tiles", "metadata"],
            tiles := [⟨3, 0, 0, [255, 216, 255]⟩, ⟨12, 1, 1, [255, 216, 255]⟩],
            metadata := [("minzoom", "5")] },
    closed := false }

/-- An open handle over `poolMinOnly`. -/
def hMinOnly : MBtiles :=
  { filename := "d.mbtiles", pool := some poolMinOnly,
    format := .JPG, timestamp := 0, tilesize := 0 }

/-- A pool whose metadata rows supply only maxzoom (as 7) while the tiles
span zooms 2 to 9. -/
def poolMaxOnly : Pool :=
  { db := { catalog := ["tiles", "metadata"],
            tiles := [⟨9, 0, 0, [255, 216, 255]⟩, ⟨2, 1, 1, [255, 216, 255]⟩],
            metadata := [("maxzoom", "7")] },
    closed := false }

/-- An open handle over `poolMaxOnly`. -/
def hMaxOnly : MBtiles :=
  { filename := "e.mbtiles", pool := some poolMaxOnly,
    format := .JPG, timestamp := 0, tilesize := 0 }

/-- A pool with no metadata rows and no tiles. -/
def poolEmpty : Pool :=
  { db := { catalog := ["tiles", "metadata"], tiles := [], metadata := [] },
    closed := false }

/-- An open handle over `poolEmpty`. -/
def hEmpty : MBtiles :=
  { filename := "f.mbtiles", pool := some poolEmpty,
    format := .UNKNOWN, timestamp := 0, tilesize := 0 }

/-- A pool whose only metadata row is a bounds row. -/
def poolBounds : Pool :=
  { db := { catalog := ["tiles", "metadata"], tiles := [],
            metadata := [("bounds", "-1.0, 2.5,3")] },
    closed := false }

/-- An open handle over `poolBounds`. -/
def hBounds : MBtiles :=
  { filename := "g.mbtiles", pool := some poolBounds,
    format := .UNKNOWN, timestamp := 0, tilesize := 0 }

/-- An environment whose database fails schema validation (empty catalog). -/
def envNoTables : OpenEnv :=
  { path := "h.mbtiles", pathExists := true, journalExists := false,
    modTime := 0, supportsBackup := true,
    db := { catalog := [], tiles := [], metadata := [] } }

/-- An environment whose database lacks the metadata table. -/
def envTilesOnly : OpenEnv :=
  { path := "i.mbtiles", pathExists := true, journalExists := false,
    modTime := 0, supportsBackup := true,
    db := { catalog := ["tiles"], tiles := [], metadata := [] } }

/-- An environment whose path has a sibling journal file. -/
def envWithJournal : OpenEnv :=
  { path := "j.mbtiles", pathExists := true, journalExists := true,
    modTime := 0, supportsBackup := true, db := sampleDB }

/-- An environment holding one gzip-compressed (vector) tile. -/
def envGzipTile : OpenEnv :=
  { path := "k.mbtiles", pathExists := true, journalExists := false,
    modTime := 0, supportsBackup := true,
    db := { catalog := ["tiles", "metadata"],
            tiles := [⟨0, 0, 0, [31, 139, 8, 0, 0]⟩], metadata := [] } }

/- ## Helper lemmas -/

theorem metaLookup_upsert_self (m : MetaMap) (k : String) (v : MetaValue) :
    metaLookup (metaUpsert m k v) k = some v := by
  induction m with
  | nil => simp [metaUpsert, metaLookup]
  | cons hd tl ih =>
    obtain ⟨k', v'⟩ := hd
    by_cases h : k' = k
    · simp [metaUpsert, metaLookup, h]
    · simp [metaUpsert, metaLookup, h, ih]

theorem metaLookup_upsert_ne (m : MetaMap) (k k2 : String) (v : MetaValue)
    (h : k ≠ k2) : metaLookup (metaUpsert m k v) k2 = metaLookup m k2 := by
  induction m with
  | nil => simp [metaUpsert, metaLookup, h]
  | cons hd tl ih =>
    obtain ⟨k', v'⟩ := hd
    by_cases h' : k' = k
    · subst h'
      simp [metaUpsert, metaLookup, h]
    · simp [metaUpsert, metaLookup, h', ih]

theorem foldl_min_le_foldl_max (zs : List Int) :
    ∀ a b : Int, a ≤ b → zs.foldl min a ≤ zs.foldl max b := by
  induction zs with
  | nil => intro a b h; simpa using h
  | cons c zs ih =>
    intro a b h
    simp only [List.foldl_cons]
    exact ih _ _ ((min_le_left a c).trans (h.trans (le_max_left b c)))

theorem scannedMinMax_fst_le_snd (tiles : List Tile) :
    (scannedMinMax tiles).1 ≤ (scannedMinMax tiles).2 := by
  rcases hZ : tiles.map (fun t => t.zoom_level) with _ | ⟨z, zs⟩
  · simp [scannedMinMax, hZ]
  · simp only [scannedMinMax, hZ]
    exact foldl_min_le_foldl_max zs z z le_rfl

/-- Unfolding `ReadMetadata` on a handle with a live pool. -/
theorem readMetadata_open (h : MBtiles) (p : Pool)
    (hp : h.pool = some p) (hc : p.closed = false) :
    ReadMetadata (some h) =
      match processRows (metadataRows p.db) [] with
      | .error e => .error e
      | .ok m => .ok (supplementZooms p.db.tiles m) := by
  simp [ReadMetadata, hp, hc]

/-- When the scanned document does not hold both zoom keys, the supplement
step installs the scanned zoom range under both keys. -/
theorem supplementZooms_lookups (tiles : List Tile) (m : MetaMap)
    (hnot : ((metaLookup m "minzoom").isSome && (metaLookup m "maxzoom").isSome) = false) :
    metaLookup (supplementZooms tiles m) "minzoom" = some (.int (scannedMinMax tiles).1) ∧
    metaLookup (supplementZooms tiles m) "maxzoom" = some (.int (scannedMinMax tiles).2) := by
  unfold supplementZooms
  rw [hnot]
  simp only [Bool.false_eq_true, if_false]
  constructor
  · rw [metaLookup_upsert_ne _ _ _ _ (by decide)]
    exact metaLookup_upsert_self _ _ _
  · exact metaLookup_upsert_self _ _ _

/-- When the scanned document holds both zoom keys, the supplement step is
the identity. -/
theorem supplementZooms_skip (tiles : List Tile) (m : MetaMap)
    (hboth : ((metaLookup m "minzoom").isSome && (metaLookup m "maxzoom").isSome) = true) :
    supplementZooms tiles m = m := by
  unfold supplementZooms
  rw [hboth]
  simp

/- ## Claim theorems -/

/-- C1 (code bug): the claim says any read on an unopened or closed handle
returns a closed-handle error and never panics. The unopened cases do
return the closed-handle error, but after `Close` the pool pointer is still
set, the nil-pool check passes, `pool.Conn` on the closed pool yields a nil
connection, and the deferred `closeConnection` — registered before the
error check — calls a method on that nil connection: both `ReadTile` and
`ReadMetadata` panic instead of returning the closed-handle error. -/
theorem readAfterClose_panics :
    ReadTile (some (Close hOpenSample)) 0 0 0 none = .panicked ∧
    ReadMetadata (some (Close hOpenSample)) = .panicked ∧
    ReadTile (some hUnopened) 0 0 0 none = .error closedMsg ∧
    ReadMetadata (some hUnopened) = .error closedMsg ∧
    ReadTile none 0 0 0 none = .error closedMsg ∧
    ReadMetadata none = .error closedMsg :=
  ⟨rfl, rfl, rfl, rfl, rfl, rfl⟩

/-- C4 (code bug): the claim says a missing tile yields no error and a
buffer holding no tile bytes. The call indeed returns no error, but
`Row.Scan` on `ErrNoRows` does not write to the destination and the
`row == nil` branch that would clear it is unreachable, so the caller's
buffer keeps whatever bytes it held before the call — stale data that the
function's own doc comment ("data will be nil if the tile does not exist")
says should be nil. A fresh nil buffer does stay nil. -/
theorem readTileMissing_keepsStaleBuffer :
    ReadTile (some hNoTiles) 0 0 0 (some [1, 2, 3]) = .ok (some [1, 2, 3]) ∧
    some [1, 2, 3] ≠ (none : Option Blob) ∧
    ReadTile (some hNoTiles) 0 0 0 none = .ok none :=
  ⟨rfl, by simp, rfl⟩

/-- C2 counterexample: a database whose metadata rows supply minzoom 5 and
maxzoom 3 makes `ReadMetadata` return both keys with minzoom > maxzoom —
nothing enforces the claimed `minzoom <= maxzoom` invariant when both rows
are present. -/
theorem metadataZoomOrder_counterexample :
    ReadMetadata (some hZoomsReversed) =
      .ok [("minzoom", .int 5), ("maxzoom", .int 3)] ∧
    ¬ ((5 : Int) ≤ 3) :=
  ⟨rfl, by decide⟩

/-- C2 (amended): when the scanned metadata rows do not supply both zoom
keys, `ReadMetadata` installs the scanned zoom range under both keys and
then `minzoom <= maxzoom` holds; when both are supplied the document is
returned as scanned, with no ordering enforced between them. -/
theorem metadataZoomRange_amended (h : MBtiles) (p : Pool) (m : MetaMap)
    (hp : h.pool = some p) (hc : p.closed = false)
    (hm : processRows (metadataRows p.db) [] = .ok m) :
    (((metaLookup m "minzoom").isSome && (metaLookup m "maxzoom").isSome) = false →
      ReadMetadata (some h) = .ok (supplementZooms p.db.tiles m) ∧
      metaLookup (supplementZooms p.db.tiles m) "minzoom"
        = some (.int (scannedMinMax p.db.tiles).1) ∧
      metaLookup (supplementZooms p.db.tiles m) "maxzoom"
        = some (.int (scannedMinMax p.db.tiles).2) ∧
      (scannedMinMax p.db.tiles).1 ≤ (scannedMinMax p.db.tiles).2) ∧
    (((metaLookup m "minzoom").isSome && (metaLookup m "maxzoom").isSome) = true →
      ReadMetadata (some h) = .ok m) := by
  constructor
  · intro hnot
    obtain ⟨h1, h2⟩ := supplementZooms_lookups p.db.tiles m hnot
    refine ⟨?_, h1, h2, scannedMinMax_fst_le_snd _⟩
    rw [readMetadata_open h p hp hc, hm]
  · intro hboth
    rw [readMetadata_open h p hp hc, hm]
    exact congrArg Outcome.ok (supplementZooms_skip p.db.tiles m hboth)

/-- Witness for the amended C2: metadata rows supplying only maxzoom 7 over
tiles spanning zooms 2 to 9 yield minzoom 2 and maxzoom 9, with 2 <= 9. -/
theorem metadataZoomRange_amended_witness :
    ∃ m', ReadMetadata (some hMaxOnly) = .ok m' ∧
      metaLookup m' "minzoom" = some (.int 2) ∧
      metaLookup m' "maxzoom" = some (.int 9) ∧ (2 : Int) ≤ 9 := by
  have h := (metadataZoomRange_amended hMaxOnly poolMaxOnly [("maxzoom", .int 7)]
    rfl rfl rfl).1 rfl
  obtain ⟨h1, h2, h3, _⟩ := h
  exact ⟨_, h1, by rw [h2]; rfl, by rw [h3]; rfl, by decide⟩

/-- C3: whenever the scanned metadata rows do not supply both minzoom and
maxzoom (including when exactly one is supplied), `ReadMetadata` overwrites
both keys with the range scanned from `min(zoom_level)`/`max(zoom_level)`
over the tiles relation. -/
theorem zoomRecomputeOverwrites (h : MBtiles) (p : Pool) (m : MetaMap)
    (hp : h.pool = some p) (hc : p.closed = false)
    (hm : processRows (metadataRows p.db) [] = .ok m)
    (hnot : ((metaLookup m "minzoom").isSome && (metaLookup m "maxzoom").isSome) = false) :
    ReadMetadata (some h) = .ok (supplementZooms p.db.tiles m) ∧
    metaLookup (supplementZooms p.db.tiles m) "minzoom"
      = some (.int (scannedMinMax p.db.tiles).1) ∧
    metaLookup (supplementZooms p.db.tiles m) "maxzoom"
      = some (.int (scannedMinMax p.db.tiles).2) := by
  obtain ⟨h1, h2⟩ := supplementZooms_lookups p.db.tiles m hnot
  refine ⟨?_, h1, h2⟩
  rw [readMetadata_open h p hp hc, hm]

/-- Witness for C3: a minzoom row saying 5 over tiles spanning zooms 3 to
12 is overwritten — the result holds minzoom 3 (not the supplied 5) and
maxzoom 12. -/
theorem zoomRecomputeOverwrites_witness :
    ∃ m', ReadMetadata (some hMinOnly) = .ok m' ∧
      metaLookup m' "minzoom" = some (.int 3) ∧
      metaLookup m' "maxzoom" = some (.int 12) ∧
      metaLookup m' "minzoom" ≠ some (.int 5) := by
  have h := zoomRecomputeOverwrites hMinOnly poolMinOnly [("minzoom", .int 5)]
    rfl rfl rfl rfl
  obtain ⟨h1, h2, h3⟩ := h
  have hscan : scannedMinMax poolMinOnly.db.tiles = (3, 12) := rfl
  rw [hscan] at h2 h3
  exact ⟨_, h1, h2, h3, by rw [h2]; simp⟩

/-- C10: with an empty tiles relation the min/max query scans NULLs, the
ignored `Scan` failure leaves both variables at zero, and — when the rows
do not supply both zoom keys — `ReadMetadata` returns minzoom 0 and
maxzoom 0 with no error. -/
theorem emptyTilesZeroZoom (h : MBtiles) (p : Pool) (m : MetaMap)
    (hp : h.pool = some p) (hc : p.closed = false)
    (htiles : p.db.tiles = [])
    (hm : processRows (metadataRows p.db) [] = .ok m)
    (hnot : ((metaLookup m "minzoom").isSome && (metaLookup m "maxzoom").isSome) = false) :
    ∃ m', ReadMetadata (some h) = .ok m' ∧
      metaLookup m' "minzoom" = some (.int 0) ∧
      metaLookup m' "maxzoom" = some (.int 0) := by
  obtain ⟨h1, h2⟩ := supplementZooms_lookups p.db.tiles m hnot
  rw [htiles] at h1 h2
  refine ⟨supplementZooms p.db.tiles m, ?_, ?_, ?_⟩
  · rw [readMetadata_open h p hp hc, hm]
  · rw [htiles, h1]; rfl
  · rw [htiles, h2]; rfl

/-- Witness for C10: an open handle over a database with no tiles and no
metadata rows yields minzoom 0 and maxzoom 0. -/
theorem emptyTilesZeroZoom_witness :
    ∃ m', ReadMetadata (some hEmpty) = .ok m' ∧
      metaLookup m' "minzoom" = some (.int 0) ∧
      metaLookup m' "maxzoom" = some (.int 0) :=
  emptyTilesZeroZoom hEmpty poolEmpty [] rfl rfl rfl rfl rfl

/-- Evaluating the row loop on a single bounds row. -/
theorem processRows_bounds_single (s : String) (m : MetaMap) :
    processRows [("bounds", s)] m =
      match parseFloats s with
      | (fs, none) => .ok (metaUpsert m "bounds" (.floats fs))
      | (_, some e) => .error ("cannot read metadata item bounds: " ++ e) := by
  simp only [processRows]
  norm_num
  rcases parseFloats s with ⟨fs, _ | e⟩
  · simp [processRows]
  · simp

/-- C6: for a handle whose (non-empty-valued) metadata is a single bounds
row, `ReadMetadata` either returns the full ordered float list parsed from
the comma-delimited string under the bounds key, or — when any component
is unparsable — fails the whole call with a parse error, surfacing no
partial list. -/
theorem boundsListOrFail (h : MBtiles) (p : Pool) (s : String)
    (hp : h.pool = some p) (hc : p.closed = false)
    (hmeta : p.db.metadata = [("bounds", s)]) (hs : s ≠ "") :
    ((parseFloats s).2 = none →
      ∃ m', ReadMetadata (some h) = .ok m' ∧
        metaLookup m' "bounds" = some (.floats (parseFloats s).1)) ∧
    (∀ e, (parseFloats s).2 = some e →
      ReadMetadata (some h) = .error ("cannot read metadata item bounds: " ++ e)) := by
  have hbne : (s != "") = true := bne_iff_ne.mpr hs
  have hrows : metadataRows p.db = [("bounds", s)] := by
    simp [metadataRows, hmeta, List.filter_cons, hbne]
  constructor
  · intro hnone
    rcases hpf : parseFloats s with ⟨fs, eo⟩
    rw [hpf] at hnone
    simp only at hnone
    subst hnone
    refine ⟨supplementZooms p.db.tiles (metaUpsert [] "bounds" (.floats fs)), ?_, ?_⟩
    · rw [readMetadata_open h p hp hc, hrows, processRows_bounds_single, hpf]
    · have hnot : ((metaLookup (metaUpsert ([] : MetaMap) "bounds" (.floats fs)) "minzoom").isSome &&
          (metaLookup (metaUpsert ([] : MetaMap) "bounds" (.floats fs)) "maxzoom").isSome) = false := by
        simp [metaUpsert, metaLookup]
      unfold supplementZooms
      rw [hnot]
      simp only [Bool.false_eq_true, if_false]
      rw [metaLookup_upsert_ne _ _ _ _ (by decide),
        metaLookup_upsert_ne _ _ _ _ (by decide),
        metaLookup_upsert_self]
  · intro e he
    rcases hpf : parseFloats s with ⟨fs, eo⟩
    rw [hpf] at he
    simp only at he
    subst he
    rw [readMetadata_open h p hp hc, hrows, processRows_bounds_single, hpf]

/-- Witness for C6: the bounds value "-1.0, 2.5,3" parses to the ordered
list [-1.0, 2.5, 3.0] (as exact rationals: -1, 5/2, 3). -/
theorem boundsListOrFail_witness :
    ∃ m', ReadMetadata (some hBounds) = .ok m' ∧
      metaLookup m' "bounds" = some (.floats [-1, mkRat 5 2, 3]) := by
  have h := (boundsListOrFail hBounds poolBounds "-1.0, 2.5,3" rfl rfl rfl
    (by decide)).1 (by decide)
  obtain ⟨m', h1, h2⟩ := h
  refine ⟨m', h1, ?_⟩
  rw [h2, show (parseFloats "-1.0, 2.5,3").1 = [-1, mkRat 5 2, 3] from by decide]

/-- C7: a path with an existing sibling journal file makes both `Open` and
`OpenInMemory` fail — with the incomplete-tileset path error when the path
itself exists, and in any case with an error, never a silent success. -/
theorem journalRefusal (env : OpenEnv) (hj : env.journalExists = true) :
    (∃ e, (Open env).1 = .error e) ∧ (∃ e, (OpenInMemory env).1 = .error e) ∧
    (env.pathExists = true →
      (Open env).1 =
        .error "refusing to open mbtiles file with associated -journal file (incomplete tileset)" ∧
      (OpenInMemory env).1 =
        .error "refusing to open mbtiles file with associated -journal file (incomplete tileset)") := by
  by_cases hpe : env.pathExists = true
  · have hmod : getModTime env =
        .error "refusing to open mbtiles file with associated -journal file (incomplete tileset)" := by
      simp [getModTime, hpe, hj]
    exact ⟨⟨"refusing to open mbtiles file with associated -journal file (incomplete tileset)",
        by simp [Open, hmod]⟩,
      ⟨"refusing to open mbtiles file with associated -journal file (incomplete tileset)",
        by simp [OpenInMemory, hmod]⟩,
      fun _ => ⟨by simp [Open, hmod], by simp [OpenInMemory, hmod]⟩⟩
  · have hpe' : env.pathExists = false := by simpa using hpe
    have hmod : getModTime env = .error ("path does not exist: " ++ goQuote env.path) := by
      simp [getModTime, hpe']
    exact ⟨⟨"path does not exist: " ++ goQuote env.path, by simp [Open, hmod]⟩,
      ⟨"path does not exist: " ++ goQuote env.path, by simp [OpenInMemory, hmod]⟩,
      fun h => absurd h hpe⟩

/-- Witness for C7: a concrete existing path with a sibling journal file is
refused by both open operations with the incomplete-tileset error. -/
theorem journalRefusal_witness :
    (Open envWithJournal).1 =
      .error "refusing to open mbtiles file with associated -journal file (incomplete tileset)" ∧
    (OpenInMemory envWithJournal).1 =
      .error "refusing to open mbtiles file with associated -journal file (incomplete tileset)" :=
  (journalRefusal envWithJournal rfl).2.2 rfl

/-- A nodup list all of whose members equal `a` has at most one element. -/
theorem nodup_const_length_le_one {α : Type} (a : α) :
    ∀ l : List α, l.Nodup → (∀ x ∈ l, x = a) → l.length ≤ 1
  | [], _, _ => by simp
  | [_], _, _ => by simp
  | x :: y :: tl, hnd, hall => by
    exfalso
    have hx : x = a := hall x (by simp)
    have hy : y = a := hall y (by simp)
    have hxy : x = y := hx.trans hy.symm
    have : x ∉ y :: tl := (List.nodup_cons.mp hnd).1
    exact this (hxy ▸ List.mem_cons_self y tl)

/-- Under a duplicate-free catalog, at least two names match the required
pair exactly when both required names are present. -/
theorem filter_required_length (catalog : List String) (hnd : catalog.Nodup) :
    2 ≤ (catalog.filter (fun n => n == "tiles" || n == "metadata")).length ↔
      "tiles" ∈ catalog ∧ "metadata" ∈ catalog := by
  constructor
  · intro h2
    by_contra hnb
    have hle : (catalog.filter (fun n => n == "tiles" || n == "metadata")).length ≤ 1 := by
      rcases not_and_or.mp hnb with hnt | hnm
      · refine nodup_const_length_le_one "metadata" _ (hnd.filter _) ?_
        intro x hx
        have hmf := List.mem_filter.mp hx
        rcases (by simpa using hmf.2 : x = "tiles" ∨ x = "metadata") with h | h
        · exact absurd (h ▸ hmf.1) hnt
        · exact h
      · refine nodup_const_length_le_one "tiles" _ (hnd.filter _) ?_
        intro x hx
        have hmf := List.mem_filter.mp hx
        rcases (by simpa using hmf.2 : x = "tiles" ∨ x = "metadata") with h | h
        · exact h
        · exact absurd (h ▸ hmf.1) hnm
    omega
  · rintro ⟨ht, hm⟩
    have hsub : ({"tiles", "metadata"} : Finset String) ⊆
        (catalog.filter (fun n => n == "tiles" || n == "metadata")).toFinset := by
      intro x hx
      simp only [Finset.mem_insert, Finset.mem_singleton] at hx
      rcases hx with rfl | rfl
      · simp only [List.mem_toFinset, List.mem_filter]
        exact ⟨ht, by decide⟩
      · simp only [List.mem_toFinset, List.mem_filter]
        exact ⟨hm, by decide⟩
    have hcard := Finset.card_le_card hsub
    have hpair : ({"tiles", "metadata"} : Finset String).card = 2 := by decide
    calc 2 = ({"tiles", "metadata"} : Finset String).card := hpair.symm
      _ ≤ (catalog.filter (fun n => n == "tiles" || n == "metadata")).toFinset.card := hcard
      _ ≤ (catalog.filter (fun n => n == "tiles" || n == "metadata")).length :=
        (catalog.filter (fun n => n == "tiles" || n == "metadata")).toFinset_card_le

/-- C8: over a duplicate-free catalog of object names, schema validation
succeeds exactly when both required relations are present by name, and
fails with the schema error naming the required tables when fewer than two
names match. Only names are consulted — the model holds nothing else. -/
theorem validateRequiredTables_iff (catalog : List String) (hnd : catalog.Nodup) :
    (validateRequiredTables catalog = .ok () ↔
      "tiles" ∈ catalog ∧ "metadata" ∈ catalog) ∧
    (¬ ("tiles" ∈ catalog ∧ "metadata" ∈ catalog) →
      validateRequiredTables catalog =
        .error "missing one or more required tables: tiles, metadata") := by
  have hiff := filter_required_length catalog hnd
  constructor
  · constructor
    · intro hok
      by_cases hlt : (catalog.filter (fun n => n == "tiles" || n == "metadata")).length < 2
      · rw [validateRequiredTables] at hok
        simp only [hlt, if_true] at hok
        exact Except.noConfusion hok
      · exact hiff.mp (by omega)
    · intro hboth
      have h2 := hiff.mpr hboth
      rw [validateRequiredTables]
      simp only [if_neg (by omega : ¬ (catalog.filter
        (fun n => n == "tiles" || n == "metadata")).length < 2)]
  · intro hnb
    have hlt : (catalog.filter (fun n => n == "tiles" || n == "metadata")).length < 2 := by
      by_contra hge
      exact hnb (hiff.mp (by omega))
    rw [validateRequiredTables]
    simp only [hlt, if_true]

/-- Witness for C8: a catalog holding both required names validates, and a
catalog holding only the tiles name fails with the schema error. -/
theorem validateRequiredTables_iff_witness :
    validateRequiredTables ["tiles", "metadata"] = .ok () ∧
    validateRequiredTables ["tiles"] =
      .error "missing one or more required tables: tiles, metadata" :=
  ⟨(validateRequiredTables_iff ["tiles", "metadata"] (by decide)).1.mpr (by decide),
   (validateRequiredTables_iff ["tiles"] (by decide)).2 (by decide)⟩

/-- C5 counterexample: on a database missing both required tables, `Open`
and `OpenInMemory` do return an error (no handle), but the probing session
is still checked out when the error propagates (the count of unreleased
probe sessions is 1, not 0): `Open` never closes the connection it takes
and `OpenInMemory` never closes the destination connection it validates
on. -/
theorem openProbeSession_counterexample :
    (Open envNoTables).1 = .error "missing one or more required tables: tiles, metadata" ∧
    (Open envNoTables).2 ≠ 0 ∧
    (OpenInMemory envNoTables).1 =
      .error "missing one or more required tables: tiles, metadata" ∧
    (OpenInMemory envNoTables).2 ≠ 0 :=
  ⟨rfl, by decide, rfl, by decide⟩

/-- C5 (amended): whenever schema validation or format detection fails
during `Open` or `OpenInMemory`, no handle is returned — the result is an
error — but the session used for probing is left checked out (one
unreleased probe session), not released before the error propagates. -/
theorem openLeavesProbeSession (env : OpenEnv) (t : Int)
    (hmod : getModTime env = .ok t)
    (hfail : (∃ e, validateRequiredTables env.db.catalog = .error e) ∨
             (∃ e, getTileFormatAndSize env.db.tiles = .error e)) :
    (∃ e, Open env = (.error e, 1)) ∧
    (env.supportsBackup = true → ∃ e, OpenInMemory env = (.error e, 1)) := by
  rcases hv : validateRequiredTables env.db.catalog with e | u
  · exact ⟨⟨e, by simp [Open, hmod, hv]⟩,
      fun hb => ⟨e, by simp [OpenInMemory, hmod, hb, hv]⟩⟩
  · rcases hfail with ⟨e, he⟩ | ⟨e, he⟩
    · rw [hv] at he
      exact Except.noConfusion he
    · exact ⟨⟨e, by simp [Open, hmod, hv, he]⟩,
        fun hb => ⟨e, by simp [OpenInMemory, hmod, hb, hv, he]⟩⟩

/-- Witness for the amended C5: a database whose catalog lacks the
metadata table makes both opens fail with one probe session still checked
out. -/
theorem openLeavesProbeSession_witness :
    (∃ e, Open envTilesOnly = (.error e, 1)) ∧
    (∃ e, OpenInMemory envTilesOnly = (.error e, 1)) := by
  have h := openLeavesProbeSession envTilesOnly 0 rfl
    (Or.inl ⟨"missing one or more required tables: tiles, metadata", rfl⟩)
  exact ⟨h.1, h.2 rfl⟩

/-- A gzip-classified sample makes `getTileFormatAndSize` report PBF with
size 0. -/
theorem getTileFormatAndSize_gzip (tiles : List Tile)
    (hd : detectTileFormat (sampleTileData tiles) = .ok .GZIP) :
    getTileFormatAndSize tiles = .ok (.PBF, 0) := by
  simp [getTileFormatAndSize, hd, detectTileSize]

/-- The probe `getTileFormatAndSize` never reports the transient GZIP tag. -/
theorem getTileFormatAndSize_ne_gzip (tiles : List Tile) (fmt : TileFormat) (sz : Nat)
    (h : getTileFormatAndSize tiles = .ok (fmt, sz)) : fmt ≠ .GZIP := by
  simp only [getTileFormatAndSize] at h
  rcases hd : detectTileFormat (sampleTileData tiles) with e | f
  · simp only [hd] at h
    exact Except.noConfusion h
  · simp only [hd] at h
    rcases hs : detectTileSize (if f == .GZIP then TileFormat.PBF else f)
        (sampleTileData tiles) with e2 | ts
    · simp only [hs] at h
      exact Except.noConfusion h
    · simp only [hs, Except.ok.injEq, Prod.mk.injEq] at h
      rw [← h.1]
      cases f <;> simp

/-- A successful `Open` stores exactly the format computed by
`getTileFormatAndSize`. -/
theorem open_stores_format (env : OpenEnv) (h : MBtiles) (n : Nat)
    (ho : Open env = (.ok h, n)) :
    ∃ sz, getTileFormatAndSize env.db.tiles = .ok (h.format, sz) := by
  simp only [Open] at ho
  rcases hm : getModTime env with e | t
  · simp only [hm] at ho
    exact Except.noConfusion (congrArg Prod.fst ho)
  · simp only [hm] at ho
    rcases hv : validateRequiredTables env.db.catalog with e | u
    · simp only [hv] at ho
      exact Except.noConfusion (congrArg Prod.fst ho)
    · simp only [hv] at ho
      rcases hf : getTileFormatAndSize env.db.tiles with e | ⟨fmt, sz⟩
      · simp only [hf] at ho
        exact Except.noConfusion (congrArg Prod.fst ho)
      · simp only [hf, Prod.mk.injEq, Except.ok.injEq] at ho
        obtain ⟨hrec, -⟩ := ho
        subst hrec
        exact ⟨sz, rfl⟩

/-- C9: the GZIP-to-PBF folding happens after classification, outside the
sniffer: the sniffer itself can report GZIP (for gzip magic bytes), yet
whenever it classifies the sampled tile as GZIP the computed format is PBF
with no detected size, the computed format is never GZIP, and the format a
successful `Open` stores in the handle (returned by `GetTileFormat`) is
never GZIP — and is PBF whenever the sample was classified GZIP. -/
theorem gzipFoldedToPbf :
    detectTileFormat [31, 139] = .ok .GZIP ∧
    (∀ tiles : List Tile, detectTileFormat (sampleTileData tiles) = .ok .GZIP →
      getTileFormatAndSize tiles = .ok (.PBF, 0)) ∧
    (∀ (tiles : List Tile) (fmt : TileFormat) (sz : Nat),
      getTileFormatAndSize tiles = .ok (fmt, sz) → fmt ≠ .GZIP) ∧
    (∀ (env : OpenEnv) (h : MBtiles) (n : Nat), Open env = (.ok h, n) →
      GetTileFormat h ≠ .GZIP ∧
      (detectTileFormat (sampleTileData env.db.tiles) = .ok .GZIP →
        GetTileFormat h = .PBF)) := by
  refine ⟨rfl, getTileFormatAndSize_gzip, getTileFormatAndSize_ne_gzip, ?_⟩
  intro env h n ho
  obtain ⟨sz, hf⟩ := open_stores_format env h n ho
  constructor
  · exact getTileFormatAndSize_ne_gzip env.db.tiles (GetTileFormat h) sz hf
  · intro hd
    have hpbf := getTileFormatAndSize_gzip env.db.tiles hd
    rw [hf] at hpbf
    simp only [Except.ok.injEq, Prod.mk.injEq] at hpbf
    exact hpbf.1

/-- Witness for C9: a database holding one gzip-compressed tile is
classified GZIP by the sniffer, and the computed format is PBF. -/
theorem gzipFoldedToPbf_witness :
    getTileFormatAndSize envGzipTile.db.tiles = .ok (.PBF, 0) :=
  gzipFoldedToPbf.2.1 envGzipTile.db.tiles rfl

end MBtilesGo
